import Mathlib

/-!
Verification development for the 3D-model-generator core: a shallow
embedding of the model-generation pipeline (scene data model, the
response normalizer's extraction/repair/parse step and geometric
rescaling, the derived build speed, the progressive reveal state
machine, and the camera-view controller), together with theorems about
the embedded definitions.  Real-number fields of the source are
modelled exactly as rationals.
-/

namespace CadGen

/-- The closed enumeration of primitive shape kinds (`ShapeType` in the
source's type declarations). -/
inductive ShapeType where
  | box
  | sphere
  | cylinder
  | cone
  | torus
  | icosahedron
deriving DecidableEq

/-- A 3-component vector of rationals, standing for the source's
`[number, number, number]` triples (position, rotation, scale). -/
structure Vec3 where
  x : ℚ
  y : ℚ
  z : ℚ
deriving DecidableEq

/-- One primitive part of a generated model (`ModelPart` in the source).
The optional `args` array is modelled as a plain list: an absent array
and an empty array are observationally identical in every use site of
the source (`part.args?.[i]` and `[...(part.args || [])]`). -/
structure ModelPart where
  id : String
  type : ShapeType
  position : Vec3
  rotation : Vec3
  scale : Vec3
  args : List ℚ
  color : String
  description : String
deriving DecidableEq

/-- The generation result (`GeneratedModel` in the source). -/
structure GeneratedModel where
  name : String
  parts : List ModelPart
deriving DecidableEq

/-! ## The rescaling algorithm `normalizeModelData`

Embedded from the source service module, lines 129-233. -/

/-- JS `v || 1` on a number: `0` (the only falsy rational) falls back
to `1`. -/
def fallback1 (v : ℚ) : ℚ := if v = 0 then 1 else v

/-- JS `args?.[i] || 1`: a missing index or a zero entry falls back
to `1`. -/
def argOr1 (args : List ℚ) (i : ℕ) : ℚ := fallback1 ((args[i]?).getD 0)

/-- The per-axis half-extent the bounding-box pass estimates for one
part, following the `switch (part.type)` in the source: box uses half
of (fallback-corrected) `scale`; cylinder and cone use
`max(args[0]||1, args[1]||1)` in x/z and `(args[2]||1)/2` in y; sphere
and icosahedron use `args[0]||1` uniformly; the remaining kind (torus)
hits the `default` branch and uses the raw fallback-corrected `scale`. -/
def partHalfExtent (p : ModelPart) : Vec3 :=
  match p.type with
  | .box =>
      ⟨fallback1 p.scale.x / 2, fallback1 p.scale.y / 2, fallback1 p.scale.z / 2⟩
  | .cylinder | .cone =>
      let h := argOr1 p.args 2
      let r := max (argOr1 p.args 0) (argOr1 p.args 1)
      ⟨r, h / 2, r⟩
  | .sphere | .icosahedron =>
      let rad := argOr1 p.args 0
      ⟨rad, rad, rad⟩
  | _ =>
      ⟨fallback1 p.scale.x, fallback1 p.scale.y, fallback1 p.scale.z⟩

/-- An axis-aligned bounding box: per-axis minima and maxima. -/
structure BBox where
  minX : ℚ
  maxX : ℚ
  minY : ℚ
  maxY : ℚ
  minZ : ℚ
  maxZ : ℚ
deriving DecidableEq

/-- The bounds `position ± half-extent` contributed by a single part. -/
def partBounds (p : ModelPart) : BBox :=
  let h := partHalfExtent p
  ⟨p.position.x - h.x, p.position.x + h.x,
   p.position.y - h.y, p.position.y + h.y,
   p.position.z - h.z, p.position.z + h.z⟩

/-- Pointwise min/max merge of two bounding boxes, as performed by the
`Math.min`/`Math.max` accumulation in the source. -/
def mergeBBox (a b : BBox) : BBox :=
  ⟨min a.minX b.minX, max a.maxX b.maxX,
   min a.minY b.minY, max a.maxY b.maxY,
   min a.minZ b.minZ, max a.maxZ b.maxZ⟩

/-- Bounding box of a list of parts; `none` for the empty list (the
source starts from `±Infinity` accumulators but only reads them for a
non-empty parts list). -/
def modelBBox : List ModelPart → Option BBox
  | [] => none
  | p :: ps => some (ps.foldl (fun acc q => mergeBBox acc (partBounds q)) (partBounds p))

/-- An axis span with the source's `maxX - minX || 1` fallback. -/
def spanFallback (lo hi : ℚ) : ℚ := fallback1 (hi - lo)

/-- The largest of the three (fallback-corrected) axis spans. -/
def maxDimOf (b : BBox) : ℚ :=
  max (max (spanFallback b.minX b.maxX) (spanFallback b.minY b.maxY))
      (spanFallback b.minZ b.maxZ)

/-- The computed max bounding dimension of a model: `0` when the model
has no parts (the source never computes a dimension in that case). -/
def modelMaxDim (m : GeneratedModel) : ℚ :=
  match modelBBox m.parts with
  | none => 0
  | some b => maxDimOf b

/-- Multiply the entry at index `i` by `k`, leaving the list unchanged
when the index is absent — JS
`if (newArgs[i] !== undefined) newArgs[i] *= scaleFactor`. -/
def scaleAt : List ℚ → ℕ → ℚ → List ℚ
  | [], _, _ => []
  | v :: vs, 0, k => (v * k) :: vs
  | v :: vs, i + 1, k => v :: scaleAt vs i k

/-- The per-part application of the scale factor: position is always
scaled on all three axes; box multiplies its `scale` vector; cylinder
and cone multiply `args[0..2]`; sphere and icosahedron multiply
`args[0]`; torus multiplies `args[0..1]`; every other field is kept. -/
def scalePart (k : ℚ) (p : ModelPart) : ModelPart :=
  let newPos : Vec3 := ⟨p.position.x * k, p.position.y * k, p.position.z * k⟩
  match p.type with
  | .box =>
      { p with position := newPos,
               scale := ⟨p.scale.x * k, p.scale.y * k, p.scale.z * k⟩ }
  | .cylinder | .cone =>
      { p with position := newPos,
               args := scaleAt (scaleAt (scaleAt p.args 0 k) 1 k) 2 k }
  | .sphere | .icosahedron =>
      { p with position := newPos, args := scaleAt p.args 0 k }
  | .torus =>
      { p with position := newPos, args := scaleAt (scaleAt p.args 0 k) 1 k }

/-- `normalizeModelData` from the source service module: return the
model unchanged when it has no parts or a zero max dimension, otherwise
rescale every part by `scaleFactor = 8 / maxDim`. -/
def normalizeModelData (m : GeneratedModel) : GeneratedModel :=
  if m.parts = [] then m
  else
    match modelBBox m.parts with
    | none => m
    | some b =>
        let maxDim := maxDimOf b
        if maxDim = 0 then m
        else
          let scaleFactor := 8 / maxDim
          { m with parts := m.parts.map (scalePart scaleFactor) }

/-! ## Spec-side predicates about the rescaling pass -/

/-- Componentwise scalar multiple of a vector. -/
def vecSmul (k : ℚ) (v : Vec3) : Vec3 := ⟨k * v.x, k * v.y, k * v.z⟩

/-- Scalar multiple of a bounding box (all six bounds multiplied). -/
def bboxSmul (k : ℚ) (b : BBox) : BBox :=
  ⟨k * b.minX, k * b.maxX, k * b.minY, k * b.maxY, k * b.minZ, k * b.maxZ⟩

/-- A bounding box with strictly positive extent on every axis. -/
def posSpans (b : BBox) : Prop :=
  b.minX < b.maxX ∧ b.minY < b.maxY ∧ b.minZ < b.maxZ

/-- A part whose bounding estimate reads exactly the fields that the
rescaling pass multiplies, with positive values: box with positive
scale components, cylinder/cone with positive `args[0..2]`,
sphere/icosahedron with positive `args[0]`.  A torus is never coherent:
its bounding estimate reads `scale`, which the rescaling pass leaves
untouched. -/
def coherentPart (p : ModelPart) : Prop :=
  match p.type with
  | .box => 0 < p.scale.x ∧ 0 < p.scale.y ∧ 0 < p.scale.z
  | .cylinder | .cone =>
      0 < (p.args[0]?).getD (0:ℚ) ∧ 0 < (p.args[1]?).getD (0:ℚ) ∧
      0 < (p.args[2]?).getD (0:ℚ)
  | .sphere | .icosahedron => 0 < (p.args[0]?).getD (0:ℚ)
  | .torus => False

/-- The identity-field part of the per-kind scaling contract: `id`,
`kind`, `rotation`, `color` and `description` are never rescaled. -/
def unscaledFields (p q : ModelPart) : Prop :=
  q.id = p.id ∧ q.type = p.type ∧ q.rotation = p.rotation ∧
  q.color = p.color ∧ q.description = p.description

/-- `a'` is `a` with every entry at an index below `cut` multiplied by
`k` and every other entry untouched. -/
def argsScaledBelow (k : ℚ) (cut : ℕ) (a a' : List ℚ) : Prop :=
  ∀ n, a'[n]? = if n < cut then (a[n]?).map (fun v => v * k) else a[n]?

/-- The full per-kind scaling contract between an input part and its
normalized image, at scale factor `k`: position is scaled on all three
axes, the identity fields are untouched, and the shape-relevant fields
are scaled per kind — box scales its `scale` vector with `args`
untouched; sphere/icosahedron scale `args[0]` with `scale` untouched;
cylinder/cone scale `args[0..2]` leaving the segment-count argument
untouched; torus scales `args[0..1]`. -/
def perKindScaled (k : ℚ) (p q : ModelPart) : Prop :=
  unscaledFields p q ∧
  q.position = vecSmul k p.position ∧
  match p.type with
  | .box => q.scale = vecSmul k p.scale ∧ q.args = p.args
  | .sphere | .icosahedron => q.scale = p.scale ∧ argsScaledBelow k 1 p.args q.args
  | .cylinder | .cone => q.scale = p.scale ∧ argsScaledBelow k 3 p.args q.args
  | .torus => q.scale = p.scale ∧ argsScaledBelow k 2 p.args q.args

/-! ## Concrete example models used in witnesses and counterexamples -/

/-- The zero vector. -/
def vzero : Vec3 := ⟨0, 0, 0⟩

/-- A model with no parts. -/
def emptyModel : GeneratedModel := { name := "empty", parts := [] }

/-- A single-torus model: its bounding estimate reads `scale` (the
`default` branch) while rescaling multiplies `args[0..1]`. -/
def torusModel : GeneratedModel :=
  { name := "ring",
    parts := [{ id := "p1", type := .torus, position := vzero, rotation := vzero,
                scale := ⟨1, 1, 1⟩, args := [3, 1], color := "#fff", description := "ring" }] }

/-- A single box with scale `(2, 4, 1)` at the origin; its max bounding
dimension is `4`. -/
def boxModel : GeneratedModel :=
  { name := "block",
    parts := [{ id := "b1", type := .box, position := vzero, rotation := vzero,
                scale := ⟨2, 4, 1⟩, args := [], color := "#abc", description := "block" }] }

/-- A single box with scale `(8, 8, 8)`: its max bounding dimension is
already `8`. -/
def box8 : GeneratedModel :=
  { name := "cube8",
    parts := [{ id := "c", type := .box, position := vzero, rotation := vzero,
                scale := ⟨8, 8, 8⟩, args := [], color := "#abc", description := "cube" }] }

/-- A single sphere part of radius 2 offset along x. -/
def spherePart : ModelPart :=
  { id := "s1", type := .sphere, position := ⟨1, 0, 0⟩, rotation := vzero,
    scale := ⟨1, 1, 1⟩, args := [2], color := "#0af", description := "ball" }

/-- A model holding just `spherePart`; its max bounding dimension is 4,
so its normalization scale factor is 2. -/
def sphereModel : GeneratedModel := { name := "ball", parts := [spherePart] }

/-- `spherePart` after rescaling by factor 2. -/
def sphereScaled : ModelPart :=
  { id := "s1", type := .sphere, position := ⟨2, 0, 0⟩, rotation := vzero,
    scale := ⟨1, 1, 1⟩, args := [4], color := "#0af", description := "ball" }

/-! ## The response normalizer's extraction, repair and parse step

`cleanAndParseJSON` from the source service module, lines 238-266.
Text is modelled as `List Char`; the fenced-code-block regex
`/(three backticks)(?:json)?\s*(\x7b[\s\S]*?\x7d)\s*(three backticks)/i`
is embedded as an explicit leftmost-match, lazy-body search, and
`JSON.parse` as a strict JSON parser over exact rationals. -/

def backtick : Char := '\x60'

def lbrace : Char := '\x7b'

def rbrace : Char := '\x7d'

def quoteCh : Char := '\x22'

/-- The regex whitespace class `\s`, on the ASCII range. -/
def isWsChar (c : Char) : Bool :=
  c == ' ' || c == '\t' || c == '\n' || c == '\r' || c == '\x0b' || c == '\x0c'

def skipWs : List Char → List Char
  | [] => []
  | c :: cs => if isWsChar c then skipWs cs else c :: cs

def leadsWith : List Char → List Char → Bool
  | [], _ => true
  | _ :: _, [] => false
  | p :: ps, c :: cs => p == c && leadsWith ps cs

/-- Case-insensitive prefix test against a lowercase pattern. -/
def leadsWithCI : List Char → List Char → Bool
  | [], _ => true
  | _ :: _, [] => false
  | p :: ps, c :: cs => p == c.toLower && leadsWithCI ps cs

def ticks3 : List Char := [backtick, backtick, backtick]

def jsonTag : List Char := ['j', 's', 'o', 'n']

/-- The lazy capture body `[\s\S]*?\x7d` followed by `\s*` and the
closing fence: stop at the first closing brace from which the rest of
the pattern matches, absorbing any earlier closing braces. -/
def lazyBody : List Char → Option (List Char)
  | [] => none
  | c :: cs =>
      if c == rbrace && leadsWith ticks3 (skipWs cs) then some [c]
      else
        match lazyBody cs with
        | some r => some (c :: r)
        | none => none

/-- Try to match the whole fence pattern at the head of `text`,
returning the captured brace span. -/
def fenceFrom (text : List Char) : Option (List Char) :=
  if leadsWith ticks3 text then
    let r1 := text.drop 3
    let r2 := if leadsWithCI jsonTag r1 then r1.drop 4 else r1
    match skipWs r2 with
    | c :: rest =>
        if c == lbrace then
          match lazyBody rest with
          | some body => some (c :: body)
          | none => none
        else none
    | [] => none
  else none

/-- Leftmost match of the fenced-code-block pattern (`text.match` in
the source returns the first match). -/
def findFence : List Char → Option (List Char)
  | [] => none
  | c :: cs =>
      match fenceFrom (c :: cs) with
      | some s => some s
      | none => findFence cs

/-- JS `indexOf` for a single character. -/
def idxOfChar (c : Char) : List Char → Option ℕ
  | [] => none
  | d :: ds => if d == c then some 0 else (idxOfChar c ds).map (· + 1)

/-- JS `lastIndexOf` for a single character. -/
def lastIdxOfChar (c : Char) (l : List Char) : Option ℕ :=
  (idxOfChar c l.reverse).map (fun i => l.length - 1 - i)

/-- JS `substring(i, j + 1)`: the characters at indices `i..j`
inclusive. -/
def sliceIncl (l : List Char) (i j : ℕ) : List Char := (l.drop i).take (j + 1 - i)

/-- Step 1 and 2 of the extraction: prefer the fenced block's brace
span; otherwise take first `\x7b` through last `\x7d` when they are in
order; otherwise keep the whole text. -/
def extractCandidate (text : List Char) : List Char :=
  match findFence text with
  | some s => s
  | none =>
      match idxOfChar lbrace text, lastIdxOfChar rbrace text with
      | some i, some j => if i < j then sliceIncl text i j else text
      | _, _ => text

/-- Split a leading whitespace run from the rest. -/
def wsSplit : List Char → (List Char × List Char)
  | [] => ([], [])
  | c :: cs =>
      if isWsChar c then
        let (w, r) := wsSplit cs
        (c :: w, r)
      else ([], c :: cs)

/-- One left-to-right pass of the global replace
`,(\s*[\x7d\]]) -> $1`: a comma followed by whitespace and a closing
brace or bracket is dropped, and scanning resumes after the match. -/
def stripTCFuel : ℕ → List Char → List Char
  | 0, l => l
  | _, [] => []
  | fuel + 1, c :: cs =>
      if c == ',' then
        match wsSplit cs with
        | (w, b :: rest) =>
            if b == rbrace || b == ']' then w ++ b :: stripTCFuel fuel rest
            else c :: stripTCFuel fuel cs
        | (_, []) => c :: stripTCFuel fuel cs
      else c :: stripTCFuel fuel cs

/-- Step 3 of the extraction: strip trailing commas immediately
preceding a closing brace or bracket. -/
def stripTrailingCommas (l : List Char) : List Char := stripTCFuel l.length l

/-- Structured data values, as produced by `JSON.parse`: the cast
`as GeneratedModel` in the source performs no runtime check, so the
parse step returns whatever JSON value the cleaned text denotes. -/
inductive Json where
  | null
  | bool (b : Bool)
  | num (q : ℚ)
  | str (s : List Char)
  | arr (elems : List Json)
  | obj (fields : List (List Char × Json))

/-- Parse the body of a JSON string after its opening quote, returning
the decoded content and the input after the closing quote. -/
def parseStringBody : ℕ → List Char → Option (List Char × List Char)
  | 0, _ => none
  | _, [] => none
  | fuel + 1, c :: cs =>
      if c == quoteCh then some ([], cs)
      else if c == '\\' then
        match cs with
        | [] => none
        | e :: cs2 =>
            let esc : Option Char :=
              if e == quoteCh then some quoteCh
              else if e == '\\' then some '\\'
              else if e == '/' then some '/'
              else if e == 'b' then some '\x08'
              else if e == 'f' then some '\x0c'
              else if e == 'n' then some '\n'
              else if e == 'r' then some '\r'
              else if e == 't' then some '\t'
              else none
            match esc with
            | some d =>
                match parseStringBody fuel cs2 with
                | some (s, rest) => some (d :: s, rest)
                | none => none
            | none =>
                if e == 'u' then
                  match cs2 with
                  | h1 :: h2 :: h3 :: h4 :: cs3 =>
                      let hv : Char → Option ℕ := fun h =>
                        if h.isDigit then some (h.toNat - 48)
                        else if 'a' ≤ h && h ≤ 'f' then some (h.toNat - 97 + 10)
                        else if 'A' ≤ h && h ≤ 'F' then some (h.toNat - 65 + 10)
                        else none
                      match hv h1, hv h2, hv h3, hv h4 with
                      | some v1, some v2, some v3, some v4 =>
                          let code := ((v1 * 16 + v2) * 16 + v3) * 16 + v4
                          match parseStringBody fuel cs3 with
                          | some (s, rest) => some (Char.ofNat code :: s, rest)
                          | none => none
                      | _, _, _, _ => none
                  | _ => none
                else none
      else
        match parseStringBody fuel cs with
        | some (s, rest) => some (c :: s, rest)
        | none => none

def digitsToNat (ds : List Char) : ℕ :=
  ds.foldl (fun acc c => acc * 10 + (c.toNat - 48)) 0

/-- Parse a strict JSON number from the head of the input (optional
minus, integer with no superfluous leading zero, optional fraction,
optional exponent), as an exact rational. -/
def parseNumber (l : List Char) : Option (ℚ × List Char) :=
  let (neg, l1) :=
    match l with
    | c :: cs => if c == '-' then (true, cs) else (false, l)
    | [] => (false, ([] : List Char))
  match l1 with
  | [] => none
  | c :: _ =>
      if c.isDigit then
        let ds := l1.takeWhile (fun d => d.isDigit)
        let rest := l1.dropWhile (fun d => d.isDigit)
        if 1 < ds.length && ds.headD '0' == '0' then none
        else
          let intVal : ℚ := (digitsToNat ds : ℕ)
          let contFrac : Option (ℚ × List Char) :=
            match rest with
            | '.' :: fs =>
                let fds := fs.takeWhile (fun d => d.isDigit)
                let frest := fs.dropWhile (fun d => d.isDigit)
                if fds.isEmpty then none
                else some (intVal + (digitsToNat fds : ℕ) / (10 : ℚ) ^ fds.length, frest)
            | _ => some (intVal, rest)
          match contFrac with
          | none => none
          | some (mant, rest2) =>
              let contExp : Option (ℚ × List Char) :=
                match rest2 with
                | e :: es =>
                    if e == 'e' || e == 'E' then
                      let (eneg, es2) :=
                        match es with
                        | s :: ss =>
                            if s == '-' then (true, ss)
                            else if s == '+' then (false, ss)
                            else (false, es)
                        | [] => (false, ([] : List Char))
                      let eds := es2.takeWhile (fun d => d.isDigit)
                      let erest := es2.dropWhile (fun d => d.isDigit)
                      if eds.isEmpty then none
                      else
                        let p : ℚ := (10 : ℚ) ^ digitsToNat eds
                        some (if eneg then mant / p else mant * p, erest)
                    else some (mant, rest2)
                | [] => some (mant, rest2)
              match contExp with
              | none => none
              | some (v, rest3) => some (if neg then -v else v, rest3)
      else none

def trueLit : List Char := ['t', 'r', 'u', 'e']

def falseLit : List Char := ['f', 'a', 'l', 's', 'e']

def nullLit : List Char := ['n', 'u', 'l', 'l']

mutual

/-- Parse one JSON value from the head of the input. -/
def parseVal : ℕ → List Char → Option (Json × List Char)
  | 0, _ => none
  | fuel + 1, l =>
      match skipWs l with
      | [] => none
      | c :: cs =>
          if c == lbrace then
            match skipWs cs with
            | d :: ds => if d == rbrace then some (.obj [], ds) else parseMembers fuel (d :: ds) []
            | [] => none
          else if c == '[' then
            match skipWs cs with
            | d :: ds => if d == ']' then some (.arr [], ds) else parseElems fuel (d :: ds) []
            | [] => none
          else if c == quoteCh then
            match parseStringBody (cs.length + 1) cs with
            | some (s, rest) => some (.str s, rest)
            | none => none
          else if leadsWith trueLit (c :: cs) then some (.bool true, (c :: cs).drop 4)
          else if leadsWith falseLit (c :: cs) then some (.bool false, (c :: cs).drop 5)
          else if leadsWith nullLit (c :: cs) then some (.null, (c :: cs).drop 4)
          else
            match parseNumber (c :: cs) with
            | some (q, rest) => some (.num q, rest)
            | none => none

/-- Parse the remaining comma-separated elements of a non-empty
array. -/
def parseElems : ℕ → List Char → List Json → Option (Json × List Char)
  | 0, _, _ => none
  | fuel + 1, l, acc =>
      match parseVal fuel l with
      | none => none
      | some (v, rest) =>
          match skipWs rest with
          | c :: cs =>
              if c == ',' then parseElems fuel cs (v :: acc)
              else if c == ']' then some (.arr (v :: acc).reverse, cs)
              else none
          | [] => none

/-- Parse the remaining comma-separated members of a non-empty
object. -/
def parseMembers : ℕ → List Char → List (List Char × Json) → Option (Json × List Char)
  | 0, _, _ => none
  | fuel + 1, l, acc =>
      match skipWs l with
      | c :: cs =>
          if c == quoteCh then
            match parseStringBody (cs.length + 1) cs with
            | some (key, rest) =>
                match skipWs rest with
                | d :: ds =>
                    if d == ':' then
                      match parseVal fuel ds with
                      | some (v, rest2) =>
                          match skipWs rest2 with
                          | e :: es =>
                              if e == ',' then parseMembers fuel es ((key, v) :: acc)
                              else if e == rbrace then some (.obj ((key, v) :: acc).reverse, es)
                              else none
                          | [] => none
                      | none => none
                    else none
                | [] => none
            | none => none
          else none
      | [] => none

end

/-- `JSON.parse`: one value, with only whitespace allowed around it.
The fuel `length + 1` bounds the call depth, which consumes at least
one character per level. -/
def parseJson (l : List Char) : Option Json :=
  match parseVal (l.length + 1) l with
  | some (v, rest) => if (skipWs rest).isEmpty then some v else none
  | none => none

/-- The cleaned text: extraction (fence first, then brace span), then
trailing-comma repair. -/
def cleanedText (text : List Char) : List Char :=
  stripTrailingCommas (extractCandidate text)

/-- The user-facing message of the `ModelInterpretationError` thrown in
the source. -/
def interpretError : String :=
  "Could not interpret the model data. The design was too abstract."

/-- `cleanAndParseJSON`: extract, repair, parse; on parse failure throw
the interpretation error.  A single attempt — no retry. -/
def cleanAndParseJSON (text : List Char) : Except String Json :=
  match parseJson (cleanedText text) with
  | some j => .ok j
  | none => .error interpretError

/-! ## Concrete raw-text inputs (braces, quotes and backticks written
as hexadecimal escapes) -/

/-- `Sure! (fence)json (object with trailing comma) (fence)` — a
fenced, trailing-comma payload with prose preamble. -/
def exFenced : List Char :=
  "Sure! \x60\x60\x60json\n\x7b\x22name\x22:\x22Cube\x22,\x22parts\x22:[\x7b\x22id\x22:\x22p1\x22\x7d],\x7d\n\x60\x60\x60".toList

/-- The brace span the fence pattern captures from `exFenced`. -/
def exFencedCapture : List Char :=
  "\x7b\x22name\x22:\x22Cube\x22,\x22parts\x22:[\x7b\x22id\x22:\x22p1\x22\x7d],\x7d".toList

/-- An unfenced JSON object embedded in prose. -/
def exEmbedded : List Char :=
  "Here is the result \x7b\x22name\x22:\x22X\x22,\x22parts\x22:[]\x7d thanks".toList

/-- Text with no braces at all, and not valid JSON. -/
def exNoBraces : List Char := "hello world".toList

def exNull : List Char := "null".toList

def exNumber : List Char := "42".toList

def exArray : List Char := "[1,2]".toList

/-- A parseable object lacking both `name` and `parts`. -/
def exBareObj : List Char := "\x7b\x22foo\x22:1\x7d".toList

/-! ## The progressive renderer's reveal state machine

From the source viewer component: `visiblePartsCount` starts at 0 when
a model is assigned, and an effect re-arms a timeout that increments it
while it is below `parts.length`. -/

/-- One elapsed build-speed delay: increment while below the part
count. -/
def buildTick (m : GeneratedModel) (c : ℕ) : ℕ :=
  if c < m.parts.length then c + 1 else c

/-- `visiblePartsCount` after `t` elapsed delays since the model was
assigned. -/
def revealedCount (m : GeneratedModel) : ℕ → ℕ
  | 0 => 0
  | t + 1 => buildTick m (revealedCount m t)

/-- The visibility contract `isVisible = (index < visiblePartsCount)`
from the render pass. -/
def partVisible (m : GeneratedModel) (t i : ℕ) : Bool :=
  decide (i < revealedCount m t)

/-- A two-part model for exercising the reveal ordering. -/
def pairModel : GeneratedModel := { name := "pair", parts := [spherePart, spherePart] }

/-! ## The derived build speed

From the source app component:
`partCount = parts.length || 1` and
`speed = partCount == 1 ? 100 : Math.min(500, 2000 / partCount)`. -/

def partCountOf (m : GeneratedModel) : ℕ :=
  if m.parts.length = 0 then 1 else m.parts.length

def derivedSpeed (m : GeneratedModel) : ℚ :=
  if partCountOf m = 1 then 100 else min 500 (2000 / (partCountOf m : ℚ))

/-- The stored speed `Math.floor(speed)`. -/
def buildingSpeed (m : GeneratedModel) : ℤ := Int.floor (derivedSpeed m)

/-- A model with `n` identical parts. -/
def repModel (n : ℕ) : GeneratedModel := { name := "many", parts := List.replicate n spherePart }

/-! ## The camera-view controller

From the source viewer component: a fixed per-mode offset at distance
15 (ISO default `(10,10,10)`), the orbit target re-set to the origin,
and an effect keyed on the whole ViewState object, which
`handleViewChange` rebuilds with a fresh `Date.now()` token on every
view command. -/

def modeISO : String := "ISO"

def modeTOP : String := "TOP"

def modeBOTTOM : String := "BOTTOM"

def modeFRONT : String := "FRONT"

def modeSIDE : String := "SIDE"

def viewOffset (mode : String) : Vec3 :=
  if mode = modeTOP then ⟨0, 15, 0⟩
  else if mode = modeBOTTOM then ⟨0, -15, 0⟩
  else if mode = modeFRONT then ⟨0, 0, 15⟩
  else if mode = modeSIDE then ⟨15, 0, 0⟩
  else ⟨10, 10, 10⟩

/-- The look-at target set on every recompute:
`controls.target.set(0, 0, 0)`. -/
def cameraTarget : Vec3 := ⟨0, 0, 0⟩

/-- `mode` plus the monotonically increasing token `t`. -/
structure ViewStateE where
  mode : String
  t : ℕ
deriving DecidableEq

def handleViewChange (mode : String) (now : ℕ) : ViewStateE := ⟨mode, now⟩

/-- One camera recompute (position, look-at target) per ViewState
assignment. -/
def cameraRecomputes (events : List ViewStateE) : List (Vec3 × Vec3) :=
  events.map (fun e => (viewOffset e.mode, cameraTarget))

/-! ## Basic lemmas about the rescaling pass -/

theorem fallback1_ne_zero (v : ℚ) : fallback1 v ≠ 0 := by
  unfold fallback1
  split
  · norm_num
  · assumption

theorem max_ne_zero' {a b : ℚ} (ha : a ≠ 0) (hb : b ≠ 0) : max a b ≠ 0 := by
  rcases max_choice a b with h | h <;> rw [h] <;> assumption

theorem maxDimOf_ne_zero (b : BBox) : maxDimOf b ≠ 0 := by
  unfold maxDimOf spanFallback
  exact max_ne_zero' (max_ne_zero' (fallback1_ne_zero _) (fallback1_ne_zero _))
    (fallback1_ne_zero _)

theorem modelMaxDim_ne_zero (m : GeneratedModel) (h : m.parts ≠ []) :
    modelMaxDim m ≠ 0 := by
  unfold modelMaxDim
  rcases hp : m.parts with _ | ⟨p, ps⟩
  · exact absurd hp h
  · simp only [modelBBox]
    exact maxDimOf_ne_zero _

theorem scaleAt_one (l : List ℚ) (i : ℕ) : scaleAt l i 1 = l := by
  induction l generalizing i with
  | nil => rfl
  | cons v vs ih =>
      cases i with
      | zero => simp [scaleAt]
      | succ n => simp [scaleAt, ih]

theorem scalePart_one (p : ModelPart) : scalePart 1 p = p := by
  rcases p with ⟨pid, ty, ⟨px, py, pz⟩, rot, ⟨sx, sy, sz⟩, args, col, desc⟩
  cases ty <;> simp [scalePart, scaleAt_one]

/-- When the model is non-empty, `normalizeModelData` maps every part
through `scalePart (8 / modelMaxDim m)`. -/
theorem normalize_parts_eq (m : GeneratedModel) (h : m.parts ≠ []) :
    (normalizeModelData m).parts = m.parts.map (scalePart (8 / modelMaxDim m)) := by
  unfold normalizeModelData
  rw [if_neg h]
  rcases hbb : modelBBox m.parts with _ | b
  · exfalso
    rcases hp : m.parts with _ | ⟨p, ps⟩
    · exact h hp
    · rw [hp] at hbb
      simp [modelBBox] at hbb
  · have hmd : modelMaxDim m = maxDimOf b := by
      unfold modelMaxDim
      rw [hbb]
    rw [hmd]
    dsimp only
    rw [if_neg (maxDimOf_ne_zero b)]

theorem getElem?_scaleAt (l : List ℚ) (i n : ℕ) (k : ℚ) :
    (scaleAt l i k)[n]? =
      if n = i then (l[n]?).map (fun v => v * k) else l[n]? := by
  induction l generalizing i n with
  | nil => simp [scaleAt]
  | cons v vs ih =>
      cases i with
      | zero =>
          cases n with
          | zero => simp [scaleAt]
          | succ m => simp [scaleAt]
      | succ j =>
          cases n with
          | zero => simp [scaleAt]
          | succ m => simpa [scaleAt] using ih j m

theorem perKindScaled_scalePart (k : ℚ) (p : ModelPart) :
    perKindScaled k p (scalePart k p) := by
  rcases p with ⟨pid, ty, ⟨px, py, pz⟩, rot, ⟨sx, sy, sz⟩, args, col, desc⟩
  cases ty <;>
    refine ⟨⟨rfl, rfl, rfl, rfl, rfl⟩, by simp [scalePart, vecSmul, mul_comm], ?_⟩
  case box => exact ⟨by simp [scalePart, vecSmul, mul_comm], by simp [scalePart]⟩
  case sphere =>
      refine ⟨by simp [scalePart], fun n => ?_⟩
      rcases n with _ | m <;> simp [scalePart, getElem?_scaleAt]
  case icosahedron =>
      refine ⟨by simp [scalePart], fun n => ?_⟩
      rcases n with _ | m <;> simp [scalePart, getElem?_scaleAt]
  case cylinder =>
      refine ⟨by simp [scalePart], fun n => ?_⟩
      rcases n with _ | _ | _ | m <;> simp [scalePart, getElem?_scaleAt]
      rw [if_neg (by omega)]
  case cone =>
      refine ⟨by simp [scalePart], fun n => ?_⟩
      rcases n with _ | _ | _ | m <;> simp [scalePart, getElem?_scaleAt]
      rw [if_neg (by omega)]
  case torus =>
      refine ⟨by simp [scalePart], fun n => ?_⟩
      rcases n with _ | _ | m <;> simp [scalePart, getElem?_scaleAt]
      rw [if_neg (by omega)]

/-- Claim C8: normalize applied to a Model with zero parts, or to a
Model whose computed maxDim is 0, returns the input unchanged; the
division by `maxDim` is guarded by the early returns, so it is never
performed with a zero denominator. -/
theorem normalize_degenerate_safe (m : GeneratedModel) :
    (m.parts = [] → normalizeModelData m = m) ∧
    (modelMaxDim m = 0 → normalizeModelData m = m) := by
  constructor
  · intro h
    unfold normalizeModelData
    rw [if_pos h]
  · intro h
    unfold normalizeModelData
    rcases hbb : modelBBox m.parts with _ | b
    · simp [hbb]
    · have h' : maxDimOf b = 0 := by
        unfold modelMaxDim at h
        rw [hbb] at h
        exact h
      simp [hbb, h']

/-- Witness for C8 at the concrete empty model: both degenerate
hypotheses hold there and normalize is the identity on it. -/
theorem normalize_degenerate_safe_witness :
    emptyModel.parts = [] ∧ modelMaxDim emptyModel = 0 ∧
    normalizeModelData emptyModel = emptyModel :=
  ⟨rfl, rfl, (normalize_degenerate_safe emptyModel).2 rfl⟩

/-- Counterexample for C6: normalize is not idempotent on every Model.
On the single-torus model the bounding estimate reads `scale` (left
untouched) while rescaling multiplies `args[0..1]`, so a second
normalize rescales the args again. -/
theorem normalize_not_idempotent :
    normalizeModelData (normalizeModelData torusModel) ≠ normalizeModelData torusModel := by
  norm_num [normalizeModelData, modelMaxDim, modelBBox, maxDimOf, spanFallback, mergeBBox,
    partBounds, partHalfExtent, fallback1, argOr1, scalePart, scaleAt, vzero, torusModel]

/-- Claim C6 (amended): normalizing a Model whose computed max bounding
dimension is already 8 returns the Model unchanged (exactly, in the
rational model of the arithmetic). -/
theorem normalize_noop_of_maxDim_eight (m : GeneratedModel) (h : modelMaxDim m = 8) :
    normalizeModelData m = m := by
  rcases m with ⟨nm, parts⟩
  unfold normalizeModelData
  rcases hbb : modelBBox parts with _ | b
  · simp [hbb]
  · have hne : parts ≠ [] := by
      intro hp
      rw [hp] at hbb
      simp [modelBBox] at hbb
    rw [if_neg hne]
    simp only [hbb]
    have hmd : maxDimOf b = 8 := by
      unfold modelMaxDim at h
      dsimp only at h
      rw [hbb] at h
      exact h
    rw [hmd]
    rw [if_neg (by norm_num : (8:ℚ) ≠ 0)]
    have h88 : (8:ℚ) / 8 = 1 := by norm_num
    rw [h88, show scalePart 1 = id from funext scalePart_one, List.map_id]

/-- Witness for C6 at a concrete box whose max dimension is already 8. -/
theorem normalize_noop_of_maxDim_eight_witness :
    modelMaxDim box8 = 8 ∧ normalizeModelData box8 = box8 :=
  ⟨by norm_num [modelMaxDim, modelBBox, maxDimOf, spanFallback, mergeBBox, partBounds,
      partHalfExtent, fallback1, argOr1, vzero, box8],
   normalize_noop_of_maxDim_eight box8
    (by norm_num [modelMaxDim, modelBBox, maxDimOf, spanFallback, mergeBBox, partBounds,
      partHalfExtent, fallback1, argOr1, vzero, box8])⟩

/-- Counterexample for C1: the bounding invariant fails on a valid
non-empty Model containing a torus — its recomputed max bounding
dimension after normalize is 2, not 8. -/
theorem bounding_invariant_fails_on_torus :
    torusModel.parts ≠ [] ∧
    modelMaxDim (normalizeModelData torusModel) = 2 ∧
    modelMaxDim (normalizeModelData torusModel) ≠ 8 := by
  refine ⟨by simp [torusModel], ?_, ?_⟩ <;>
    norm_num [normalizeModelData, modelMaxDim, modelBBox, maxDimOf, spanFallback, mergeBBox,
      partBounds, partHalfExtent, fallback1, argOr1, scalePart, scaleAt, vzero, torusModel]

/-- Claim C7: normalize applies the scale factor per-kind to exactly
the shape-relevant fields, scales every position, and leaves id, kind,
rotation, color and description unchanged, for every part of every
model. -/
theorem normalize_per_kind_fields (m : GeneratedModel) (i : ℕ) (p q : ModelPart)
    (hp : m.parts[i]? = some p)
    (hq : (normalizeModelData m).parts[i]? = some q) :
    perKindScaled (8 / modelMaxDim m) p q := by
  have hne : m.parts ≠ [] := by
    intro h0
    rw [h0] at hp
    simp at hp
  rw [normalize_parts_eq m hne, List.getElem?_map, hp, Option.map_some'] at hq
  have hqe : q = scalePart (8 / modelMaxDim m) p := (Option.some.inj hq).symm
  rw [hqe]
  exact perKindScaled_scalePart _ _

/-! ## The bounding invariant on coherent models (claim C1) -/

theorem getD_pos_some {l : List ℚ} {i : ℕ} (h : 0 < (l[i]?).getD 0) :
    l[i]? = some ((l[i]?).getD 0) := by
  cases hg : l[i]? with
  | none => rw [hg] at h; norm_num at h
  | some v => simp [hg]

theorem argOr1_pos_eq {l : List ℚ} {i : ℕ} (h : 0 < (l[i]?).getD 0) :
    argOr1 l i = (l[i]?).getD 0 := by
  unfold argOr1 fallback1
  rw [if_neg (ne_of_gt h)]

theorem argOr1_pos {l : List ℚ} {i : ℕ} (h : 0 < (l[i]?).getD 0) :
    0 < argOr1 l i := by
  rw [argOr1_pos_eq h]
  exact h

/-- On a positive, present argument entry, rescaling the entry rescales
`argOr1`. -/
theorem argOr1_scaled {args a' : List ℚ} {i : ℕ} {k : ℚ} (hk : 0 < k)
    (hi : a'[i]? = (args[i]?).map (fun v => v * k))
    (h : 0 < (args[i]?).getD 0) :
    argOr1 a' i = argOr1 args i * k := by
  have hsome := getD_pos_some h
  rw [hsome, Option.map_some'] at hi
  have hv : 0 < (args[i]?).getD 0 * k := mul_pos h hk
  unfold argOr1
  rw [hi, hsome]
  simp only [Option.getD_some]
  unfold fallback1
  rw [if_neg (ne_of_gt hv), if_neg (ne_of_gt h)]

theorem partHalfExtent_pos (p : ModelPart) (h : coherentPart p) :
    0 < (partHalfExtent p).x ∧ 0 < (partHalfExtent p).y ∧ 0 < (partHalfExtent p).z := by
  rcases p with ⟨pid, ty, pos, rot, ⟨sx, sy, sz⟩, args, col, desc⟩
  unfold coherentPart at h
  cases ty
  case box =>
      obtain ⟨hx, hy, hz⟩ := h
      unfold partHalfExtent fallback1
      dsimp only at hx hy hz ⊢
      rw [if_neg (ne_of_gt hx), if_neg (ne_of_gt hy), if_neg (ne_of_gt hz)]
      exact ⟨by linarith, by linarith, by linarith⟩
  case cylinder =>
      obtain ⟨h0, h1, h2⟩ := h
      dsimp only at h0 h1 h2
      unfold partHalfExtent
      dsimp only
      have hr : 0 < max (argOr1 args 0) (argOr1 args 1) :=
        lt_of_lt_of_le (argOr1_pos h0) (le_max_left _ _)
      exact ⟨hr, by have := argOr1_pos h2; linarith, hr⟩
  case cone =>
      obtain ⟨h0, h1, h2⟩ := h
      dsimp only at h0 h1 h2
      unfold partHalfExtent
      dsimp only
      have hr : 0 < max (argOr1 args 0) (argOr1 args 1) :=
        lt_of_lt_of_le (argOr1_pos h0) (le_max_left _ _)
      exact ⟨hr, by have := argOr1_pos h2; linarith, hr⟩
  case sphere =>
      dsimp only at h
      have := argOr1_pos h
      unfold partHalfExtent
      dsimp only
      exact ⟨this, this, this⟩
  case icosahedron =>
      dsimp only at h
      have := argOr1_pos h
      unfold partHalfExtent
      dsimp only
      exact ⟨this, this, this⟩
  case torus => exact absurd h not_false

theorem scalePart_position (k : ℚ) (p : ModelPart) :
    (scalePart k p).position = ⟨p.position.x * k, p.position.y * k, p.position.z * k⟩ := by
  rcases p with ⟨pid, ty, pos, rot, sc, args, col, desc⟩
  cases ty <;> rfl

theorem scalePart_type (k : ℚ) (p : ModelPart) : (scalePart k p).type = p.type := by
  rcases p with ⟨pid, ty, pos, rot, sc, args, col, desc⟩
  cases ty <;> rfl

/-- On a coherent part, rescaling the part rescales its estimated
half-extent by the same (positive) factor. -/
theorem partHalfExtent_scalePart (k : ℚ) (hk : 0 < k) (p : ModelPart)
    (h : coherentPart p) :
    partHalfExtent (scalePart k p) = vecSmul k (partHalfExtent p) := by
  rcases p with ⟨pid, ty, pos, rot, ⟨sx, sy, sz⟩, args, col, desc⟩
  unfold coherentPart at h
  cases ty
  case box =>
      obtain ⟨hx, hy, hz⟩ := h
      dsimp only at hx hy hz
      unfold scalePart partHalfExtent fallback1 vecSmul
      dsimp only
      rw [if_neg (ne_of_gt (mul_pos hx hk)), if_neg (ne_of_gt (mul_pos hy hk)),
          if_neg (ne_of_gt (mul_pos hz hk)),
          if_neg (ne_of_gt hx), if_neg (ne_of_gt hy), if_neg (ne_of_gt hz)]
      simp only [Vec3.mk.injEq]
      refine ⟨by ring, by ring, by ring⟩
  case cylinder =>
      obtain ⟨h0, h1, h2⟩ := h
      unfold scalePart partHalfExtent vecSmul
      dsimp only
      have e0 : argOr1 (scaleAt (scaleAt (scaleAt args 0 k) 1 k) 2 k) 0 = argOr1 args 0 * k :=
        argOr1_scaled hk (by simp [getElem?_scaleAt]) h0
      have e1 : argOr1 (scaleAt (scaleAt (scaleAt args 0 k) 1 k) 2 k) 1 = argOr1 args 1 * k :=
        argOr1_scaled hk (by simp [getElem?_scaleAt]) h1
      have e2 : argOr1 (scaleAt (scaleAt (scaleAt args 0 k) 1 k) 2 k) 2 = argOr1 args 2 * k :=
        argOr1_scaled hk (by simp [getElem?_scaleAt]) h2
      rw [e0, e1, e2, ← max_mul_of_nonneg _ _ hk.le]
      simp only [Vec3.mk.injEq]
      refine ⟨by ring, by ring, by ring⟩
  case cone =>
      obtain ⟨h0, h1, h2⟩ := h
      unfold scalePart partHalfExtent vecSmul
      dsimp only
      have e0 : argOr1 (scaleAt (scaleAt (scaleAt args 0 k) 1 k) 2 k) 0 = argOr1 args 0 * k :=
        argOr1_scaled hk (by simp [getElem?_scaleAt]) h0
      have e1 : argOr1 (scaleAt (scaleAt (scaleAt args 0 k) 1 k) 2 k) 1 = argOr1 args 1 * k :=
        argOr1_scaled hk (by simp [getElem?_scaleAt]) h1
      have e2 : argOr1 (scaleAt (scaleAt (scaleAt args 0 k) 1 k) 2 k) 2 = argOr1 args 2 * k :=
        argOr1_scaled hk (by simp [getElem?_scaleAt]) h2
      rw [e0, e1, e2, ← max_mul_of_nonneg _ _ hk.le]
      simp only [Vec3.mk.injEq]
      refine ⟨by ring, by ring, by ring⟩
  case sphere =>
      unfold scalePart partHalfExtent vecSmul
      dsimp only
      have e0 : argOr1 (scaleAt args 0 k) 0 = argOr1 args 0 * k :=
        argOr1_scaled hk (by simp [getElem?_scaleAt]) h
      rw [e0]
      simp only [Vec3.mk.injEq]
      refine ⟨by ring, by ring, by ring⟩
  case icosahedron =>
      unfold scalePart partHalfExtent vecSmul
      dsimp only
      have e0 : argOr1 (scaleAt args 0 k) 0 = argOr1 args 0 * k :=
        argOr1_scaled hk (by simp [getElem?_scaleAt]) h
      rw [e0]
      simp only [Vec3.mk.injEq]
      refine ⟨by ring, by ring, by ring⟩
  case torus => exact absurd h not_false

theorem partBounds_scalePart (k : ℚ) (hk : 0 < k) (p : ModelPart)
    (h : coherentPart p) :
    partBounds (scalePart k p) = bboxSmul k (partBounds p) := by
  unfold partBounds bboxSmul
  rw [partHalfExtent_scalePart k hk p h, scalePart_position]
  simp only [vecSmul, BBox.mk.injEq]
  refine ⟨by ring, by ring, by ring, by ring, by ring, by ring⟩

theorem mergeBBox_smul (k : ℚ) (hk : 0 ≤ k) (a b : BBox) :
    mergeBBox (bboxSmul k a) (bboxSmul k b) = bboxSmul k (mergeBBox a b) := by
  unfold mergeBBox bboxSmul
  simp only [BBox.mk.injEq]
  refine ⟨(mul_min_of_nonneg _ _ hk).symm, (mul_max_of_nonneg _ _ hk).symm,
          (mul_min_of_nonneg _ _ hk).symm, (mul_max_of_nonneg _ _ hk).symm,
          (mul_min_of_nonneg _ _ hk).symm, (mul_max_of_nonneg _ _ hk).symm⟩

theorem foldBounds_smul (k : ℚ) (hk : 0 < k) (ps : List ModelPart)
    (hcoh : ∀ p ∈ ps, coherentPart p) (init : BBox) :
    (ps.map (scalePart k)).foldl (fun acc q => mergeBBox acc (partBounds q)) (bboxSmul k init)
      = bboxSmul k (ps.foldl (fun acc q => mergeBBox acc (partBounds q)) init) := by
  induction ps generalizing init with
  | nil => rfl
  | cons p ps ih =>
      simp only [List.map_cons, List.foldl_cons]
      rw [partBounds_scalePart k hk p (hcoh p (by simp)), mergeBBox_smul k hk.le]
      exact ih (fun q hq => hcoh q (by simp [hq])) _

theorem posSpans_partBounds (p : ModelPart) (h : coherentPart p) :
    posSpans (partBounds p) := by
  obtain ⟨hx, hy, hz⟩ := partHalfExtent_pos p h
  unfold posSpans partBounds
  exact ⟨by dsimp only; linarith, by dsimp only; linarith, by dsimp only; linarith⟩

theorem posSpans_merge (a b : BBox) (h : posSpans a) : posSpans (mergeBBox a b) := by
  obtain ⟨h1, h2, h3⟩ := h
  unfold posSpans mergeBBox
  refine ⟨?_, ?_, ?_⟩ <;> dsimp only
  · exact lt_of_le_of_lt (min_le_left _ _) (lt_of_lt_of_le h1 (le_max_left _ _))
  · exact lt_of_le_of_lt (min_le_left _ _) (lt_of_lt_of_le h2 (le_max_left _ _))
  · exact lt_of_le_of_lt (min_le_left _ _) (lt_of_lt_of_le h3 (le_max_left _ _))

theorem posSpans_fold (ps : List ModelPart) (init : BBox) (h : posSpans init) :
    posSpans (ps.foldl (fun acc q => mergeBBox acc (partBounds q)) init) := by
  induction ps generalizing init with
  | nil => exact h
  | cons p ps ih => exact ih _ (posSpans_merge _ _ h)

theorem spanFallback_smul {k lo hi : ℚ} (hk : 0 < k) (h : lo < hi) :
    spanFallback (k * lo) (k * hi) = k * spanFallback lo hi := by
  unfold spanFallback fallback1
  have h1 : hi - lo ≠ 0 := ne_of_gt (by linarith)
  have h2 : k * hi - k * lo ≠ 0 := by
    have : 0 < k * (hi - lo) := mul_pos hk (by linarith)
    intro hc
    rw [show k * hi - k * lo = k * (hi - lo) from by ring] at hc
    rw [hc] at this
    exact lt_irrefl 0 this
  rw [if_neg h1, if_neg h2]
  ring

theorem maxDimOf_smul (k : ℚ) (hk : 0 < k) (b : BBox) (h : posSpans b) :
    maxDimOf (bboxSmul k b) = k * maxDimOf b := by
  obtain ⟨h1, h2, h3⟩ := h
  unfold maxDimOf bboxSmul
  dsimp only
  rw [spanFallback_smul hk h1, spanFallback_smul hk h2, spanFallback_smul hk h3,
      mul_max_of_nonneg _ _ hk.le, mul_max_of_nonneg _ _ hk.le]

theorem maxDimOf_pos (b : BBox) (h : posSpans b) : 0 < maxDimOf b := by
  obtain ⟨h1, _, _⟩ := h
  have hx : 0 < spanFallback b.minX b.maxX := by
    unfold spanFallback fallback1
    rw [if_neg (ne_of_gt (by linarith : (0:ℚ) < b.maxX - b.minX))]
    linarith
  exact lt_of_lt_of_le hx (le_trans (le_max_left _ _) (le_max_left _ _))

/-- Claim C1 (amended): for every non-empty Model all of whose parts
are coherent (bounding estimate reads exactly the rescaled fields, with
positive values: no torus, positive box scale, positive present radius
and height args), the recomputed max bounding dimension after normalize
is exactly 8. -/
theorem bounding_invariant_coherent (m : GeneratedModel) (hne : m.parts ≠ [])
    (hcoh : ∀ p ∈ m.parts, coherentPart p) :
    modelMaxDim (normalizeModelData m) = 8 := by
  have hparts := normalize_parts_eq m hne
  rcases m with ⟨nm, parts⟩
  rcases parts with _ | ⟨p, ps⟩
  · exact absurd rfl hne
  dsimp only at hparts hcoh ⊢
  have hcp : coherentPart p := hcoh p (by simp)
  have hcps : ∀ q ∈ ps, coherentPart q := fun q hq => hcoh q (by simp [hq])
  have hps : posSpans (ps.foldl (fun acc q => mergeBBox acc (partBounds q)) (partBounds p)) :=
    posSpans_fold ps _ (posSpans_partBounds p hcp)
  have hmd : modelMaxDim ⟨nm, p :: ps⟩ =
      maxDimOf (ps.foldl (fun acc q => mergeBBox acc (partBounds q)) (partBounds p)) := by
    unfold modelMaxDim
    simp [modelBBox]
  have hpos : 0 < modelMaxDim ⟨nm, p :: ps⟩ := by
    rw [hmd]
    exact maxDimOf_pos _ hps
  have hk : 0 < 8 / modelMaxDim ⟨nm, p :: ps⟩ := by positivity
  unfold modelMaxDim
  rw [hparts]
  simp only [List.map_cons, modelBBox]
  rw [partBounds_scalePart _ hk p hcp, foldBounds_smul _ hk ps hcps, maxDimOf_smul _ hk _ hps,
      ← hmd]
  exact div_mul_cancel₀ 8 (ne_of_gt hpos)

/-- Witness for C1 at a concrete coherent single-box model. -/
theorem bounding_invariant_coherent_witness :
    boxModel.parts ≠ [] ∧ (∀ p ∈ boxModel.parts, coherentPart p) ∧
    modelMaxDim (normalizeModelData boxModel) = 8 := by
  have hco : ∀ p ∈ boxModel.parts, coherentPart p := by
    intro q hq
    simp [boxModel] at hq
    subst hq
    norm_num [coherentPart]
  exact ⟨by simp [boxModel], hco,
    bounding_invariant_coherent boxModel (by simp [boxModel]) hco⟩

/-- Witness for C7 at a concrete single-sphere model with scale
factor 2. -/
theorem normalize_per_kind_fields_witness :
    sphereModel.parts[0]? = some spherePart ∧
    (normalizeModelData sphereModel).parts[0]? = some sphereScaled ∧
    perKindScaled (8 / modelMaxDim sphereModel) spherePart sphereScaled :=
  ⟨rfl,
   by norm_num [normalizeModelData, modelMaxDim, modelBBox, maxDimOf, spanFallback, mergeBBox,
      partBounds, partHalfExtent, fallback1, argOr1, scalePart, scaleAt, vzero,
      sphereModel, spherePart, sphereScaled],
   normalize_per_kind_fields sphereModel 0 spherePart sphereScaled rfl
    (by norm_num [normalizeModelData, modelMaxDim, modelBBox, maxDimOf, spanFallback, mergeBBox,
      partBounds, partHalfExtent, fallback1, argOr1, scalePart, scaleAt, vzero,
      sphereModel, spherePart, sphereScaled])⟩

/-! ## Theorems about the extraction, repair and parse step -/

/-- Claim C2: extraction is ordered with first match winning — a
matching fenced block's captured span is used; otherwise the substring
from the first opening to the last closing brace (when in order) is
used; after the trailing-comma repair, both the fenced trailing-comma
payload with prose preamble and the unfenced object embedded in prose
parse to a Model-shaped value. -/
theorem cleanAndParseJSON_extraction_spec :
    (∀ text s, findFence text = some s → extractCandidate text = s) ∧
    (∀ text i j, findFence text = none → idxOfChar lbrace text = some i →
      lastIdxOfChar rbrace text = some j → i < j →
      extractCandidate text = sliceIncl text i j) ∧
    cleanAndParseJSON exFenced =
      .ok (.obj [(['n', 'a', 'm', 'e'], .str ['C', 'u', 'b', 'e']),
                 (['p', 'a', 'r', 't', 's'], .arr [.obj [(['i', 'd'], .str ['p', '1'])]])]) ∧
    cleanAndParseJSON exEmbedded =
      .ok (.obj [(['n', 'a', 'm', 'e'], .str ['X']), (['p', 'a', 'r', 't', 's'], .arr [])]) := by
  refine ⟨?_, ?_, rfl, rfl⟩
  · intro text s h
    unfold extractCandidate
    rw [h]
  · intro text i j hf hi hj hij
    unfold extractCandidate
    rw [hf, hi, hj]
    dsimp only
    rw [if_pos hij]

/-- Witness for C2: the fence branch fires on the fenced example, and
the brace-span branch fires on the embedded example at indices 19
and 41. -/
theorem cleanAndParseJSON_extraction_spec_witness :
    (findFence exFenced = some exFencedCapture ∧
      extractCandidate exFenced = exFencedCapture) ∧
    (findFence exEmbedded = none ∧ idxOfChar lbrace exEmbedded = some 19 ∧
      lastIdxOfChar rbrace exEmbedded = some 41 ∧ (19 : ℕ) < 41 ∧
      extractCandidate exEmbedded = sliceIncl exEmbedded 19 41) :=
  ⟨⟨rfl, cleanAndParseJSON_extraction_spec.1 exFenced exFencedCapture rfl⟩,
   ⟨rfl, rfl, rfl, by norm_num,
    cleanAndParseJSON_extraction_spec.2.1 exEmbedded 19 41 rfl rfl rfl (by norm_num)⟩⟩

/-- Claim C5: whenever parsing of the cleaned text fails, the
Normalizer fails with the `ModelInterpretationError` carrying the
user-facing "too abstract" message; the function makes a single
attempt, so this is terminal for the request. -/
theorem parse_failure_terminal (text : List Char)
    (h : parseJson (cleanedText text) = none) :
    cleanAndParseJSON text = .error interpretError := by
  unfold cleanAndParseJSON
  rw [h]

/-- Witness for C5 at a concrete input with no braces at all. -/
theorem parse_failure_terminal_witness :
    parseJson (cleanedText exNoBraces) = none ∧
    cleanAndParseJSON exNoBraces = .error interpretError :=
  ⟨rfl, parse_failure_terminal exNoBraces rfl⟩

/-- Claim C10: the parse step errors exactly when JSON parsing of the
cleaned text fails; it performs no structural validation, so the
literal `null`, a bare number, a bare array, and an object lacking
`name` and `parts` are all returned without error. -/
theorem parse_no_validation :
    (∀ text : List Char,
      (cleanAndParseJSON text).isOk = (parseJson (cleanedText text)).isSome) ∧
    cleanAndParseJSON exNull = .ok .null ∧
    cleanAndParseJSON exNumber = .ok (.num 42) ∧
    cleanAndParseJSON exArray = .ok (.arr [.num 1, .num 2]) ∧
    cleanAndParseJSON exBareObj = .ok (.obj [(['f', 'o', 'o'], .num 1)]) := by
  refine ⟨?_, rfl, rfl, rfl, rfl⟩
  intro text
  unfold cleanAndParseJSON
  cases parseJson (cleanedText text) <;> rfl

/-! ## Theorems about the progressive reveal -/

theorem revealedCount_eq_min (m : GeneratedModel) (t : ℕ) :
    revealedCount m t = min t m.parts.length := by
  induction t with
  | zero => simp [revealedCount]
  | succ t ih =>
      unfold revealedCount buildTick
      rw [ih]
      split <;> omega

/-- Claim C3: the reveal count starts at 0, each elapsed build-speed
delay increments it by exactly 1 while it is below the part count, a
part is visible iff its index is below the reveal count; hence after
`N` delays all `N` parts are visible, no part is visible at time 0, and
a part never becomes visible before a lower-indexed part. -/
theorem progressive_reveal_spec (m : GeneratedModel) :
    revealedCount m 0 = 0 ∧
    (∀ t, revealedCount m (t + 1) =
      if revealedCount m t < m.parts.length then revealedCount m t + 1
      else revealedCount m t) ∧
    (∀ i, partVisible m 0 i = false) ∧
    (∀ i, i < m.parts.length → partVisible m m.parts.length i = true) ∧
    (∀ t i j, j < i → partVisible m t i = true → partVisible m t j = true) := by
  refine ⟨rfl, fun t => rfl, fun i => by simp [partVisible, revealedCount], ?_, ?_⟩
  · intro i hi
    simp only [partVisible, revealedCount_eq_min, decide_eq_true_eq]
    omega
  · intro t i j hij
    simp only [partVisible, decide_eq_true_eq]
    omega

/-- Witness for C3 on a concrete two-part model: after two delays both
parts are visible, and visibility of index 1 forces visibility of
index 0. -/
theorem progressive_reveal_spec_witness :
    ((1 : ℕ) < pairModel.parts.length ∧
      partVisible pairModel pairModel.parts.length 1 = true) ∧
    ((0 : ℕ) < 1 ∧ partVisible pairModel 2 1 = true ∧
      partVisible pairModel 2 0 = true) :=
  ⟨⟨by decide, (progressive_reveal_spec pairModel).2.2.2.1 1 (by decide)⟩,
   ⟨by decide, by decide,
    (progressive_reveal_spec pairModel).2.2.2.2 2 1 0 (by decide) (by decide)⟩⟩

/-! ## Theorems about the derived build speed -/

theorem partCountOf_eq_max (m : GeneratedModel) :
    partCountOf m = max 1 m.parts.length := by
  unfold partCountOf
  split <;> omega

/-- Claim C4: the derived build speed satisfies
`partCount = max(1, parts.length)`, `speed = 100` when the count is 1
and `min(500, 2000 / partCount)` otherwise; in particular 4 parts give
500, 20 parts give 100, and 40 parts give 50. -/
theorem build_speed_spec :
    (∀ m : GeneratedModel, partCountOf m = max 1 m.parts.length) ∧
    (∀ m : GeneratedModel, derivedSpeed m =
      if max 1 m.parts.length = 1 then 100
      else min 500 (2000 / ((max 1 m.parts.length : ℕ) : ℚ))) ∧
    derivedSpeed (repModel 1) = 100 ∧
    derivedSpeed (repModel 4) = 500 ∧
    derivedSpeed (repModel 20) = 100 ∧
    derivedSpeed (repModel 40) = 50 := by
  refine ⟨partCountOf_eq_max, ?_, ?_, ?_, ?_, ?_⟩
  · intro m
    unfold derivedSpeed
    rw [partCountOf_eq_max]
  · norm_num [derivedSpeed, partCountOf, repModel]
  · norm_num [derivedSpeed, partCountOf, repModel, min_def]
  · norm_num [derivedSpeed, partCountOf, repModel, min_def]
  · norm_num [derivedSpeed, partCountOf, repModel, min_def]

/-! ## Theorems about the camera-view controller -/

/-- Claim C9: every view command rebuilds the ViewState, and two states
with the same mode but different tokens are distinct, so the camera
effect re-fires even when the mode is unchanged; each recompute places
the camera at the fixed per-mode offset — ISO equidistant on all three
axes, TOP/BOTTOM purely on the y axis, FRONT purely on the z axis, SIDE
purely on the x axis — and re-targets the origin; re-selecting TOP
twice recomputes both times. -/
theorem camera_view_spec :
    (∀ (mode : String) (t t' : ℕ), t ≠ t' →
      handleViewChange mode t ≠ handleViewChange mode t') ∧
    ((viewOffset modeISO).x = (viewOffset modeISO).y ∧
      (viewOffset modeISO).y = (viewOffset modeISO).z ∧ (viewOffset modeISO).x ≠ 0) ∧
    (viewOffset modeTOP = ⟨0, 15, 0⟩ ∧ viewOffset modeBOTTOM = ⟨0, -15, 0⟩ ∧
      viewOffset modeFRONT = ⟨0, 0, 15⟩ ∧ viewOffset modeSIDE = ⟨15, 0, 0⟩) ∧
    cameraTarget = ⟨0, 0, 0⟩ ∧
    (∀ events : List ViewStateE, (cameraRecomputes events).length = events.length) ∧
    cameraRecomputes [handleViewChange modeTOP 1, handleViewChange modeTOP 2] =
      [(⟨0, 15, 0⟩, ⟨0, 0, 0⟩), (⟨0, 15, 0⟩, ⟨0, 0, 0⟩)] := by
  refine ⟨?_, ⟨rfl, rfl, by
      rw [show (viewOffset modeISO).x = (10 : ℚ) from rfl]
      norm_num⟩,
    ⟨rfl, rfl, rfl, rfl⟩, rfl, fun events => List.length_map _ _, rfl⟩
  intro mode t t' h hc
  exact h (congrArg ViewStateE.t hc)

/-- Witness for C9: tokens 1 and 2 with the same TOP mode yield
distinct ViewStates. -/
theorem camera_view_spec_witness :
    (1 : ℕ) ≠ 2 ∧ handleViewChange modeTOP 1 ≠ handleViewChange modeTOP 2 :=
  ⟨by decide, camera_view_spec.1 modeTOP 1 2 (by decide)⟩

end CadGen
